import Mathlib

/-!
Verification of the repo-flattening pipeline (`flatten_repo.py`): file
classification, skip lists, stats, fallback directory tree, anchor slugs and
the CXML structured export. Filesystem state (paths, byte contents, stat and
read outcomes) is embedded as explicit data; the functions below are direct
translations of the Python source.
-/

namespace Flatten

/-- Default size threshold, `MAX_DEFAULT_BYTES = 50 * 1024` in the source. -/
def MAX_DEFAULT_BYTES : Nat := 50 * 1024

/-- The `BINARY_EXTENSIONS` set from the source (kept as a list; membership only). -/
def BINARY_EXTENSIONS : List String :=
  [".png", ".jpg", ".jpeg", ".gif", ".webp", ".bmp", ".svg", ".ico",
   ".pdf", ".zip", ".tar", ".gz", ".bz2", ".xz", ".7z", ".rar",
   ".mp3", ".mp4", ".mov", ".avi", ".mkv", ".wav", ".ogg", ".flac",
   ".ttf", ".otf", ".eot", ".woff", ".woff2",
   ".so", ".dll", ".dylib", ".class", ".jar", ".exe", ".bin"]

/-- The `MARKDOWN_EXTENSIONS` set from the source. -/
def MARKDOWN_EXTENSIONS : List String :=
  [".md", ".markdown", ".mdown", ".mkd", ".mkdn"]

/-- Classification reason, the `reason` string field of `RenderDecision`. -/
inductive Reason where
  | ok
  | binary
  | too_large
  | ignored
deriving DecidableEq

/-- `RenderDecision` dataclass: include flag and reason. -/
structure RenderDecision where
  «include» : Bool
  reason : Reason
deriving DecidableEq

/-- A regular file as the pipeline observes it: repo-relative slash-separated
path, stat outcome (`none` models `FileNotFoundError`), whether the binary
probe's byte read succeeds, the raw bytes, whether `read_text` succeeds, the
decoded text (`errors="replace"` decoding is a library call, taken as given),
and the exception message a failed read would carry. -/
structure FSFile where
  rel : String
  statSize : Option Nat
  readable : Bool
  bytes : List Nat
  readOk : Bool
  text : String
  errMsg : String

/-- `FileInfo` dataclass: the file (standing for its absolute path), its
repo-relative path, size and decision. -/
structure FileInfo where
  path : FSFile
  rel : String
  size : Nat
  decision : RenderDecision

/-- One entry yielded by the traversal (`repo_root.rglob("*")`), with the
flags the walk inspects. -/
structure FSEntry where
  file : FSFile
  isSymlink : Bool
  isFile : Bool

/-! ### String helpers shared by several source functions -/

/-- Python's `needle in hay` substring test, on character lists. -/
def containsSub (hay needle : List Char) : Bool :=
  match hay with
  | [] => needle.isEmpty
  | c :: t => needle.isPrefixOf (c :: t) || containsSub t needle

/-- Substring test on strings (Python `in`). -/
def containsSubStr (hay needle : String) : Bool :=
  containsSub hay.data needle.data

/-- Python `"\n".join`-style joining with a separator. -/
def strJoin (sep : String) : List String → String
  | [] => ""
  | [x] => x
  | x :: y :: t => x ++ sep ++ strJoin sep (y :: t)

/-- `html.escape` with its default `quote=True`: replaces the five
markup-significant characters. -/
def escChar (c : Char) : List Char :=
  if c = '&' then "&amp;".data
  else if c = '<' then "&lt;".data
  else if c = '>' then "&gt;".data
  else if c = '"' then "&quot;".data
  else if c = '\'' then "&#x27;".data
  else [c]

/-- `html.escape` on strings. -/
def htmlEscape (s : String) : String :=
  ⟨s.data.flatMap escChar⟩

/-- Last slash-separated component of a relative path (`pathlib` name). -/
def lastComp (s : List Char) : List Char :=
  (s.reverse.takeWhile (fun c => ¬ (c = '/'))).reverse

/-- Scan a reversed file name for its extension: the last dot of the name,
kept only when characters remain both before and after it
(`pathlib.PurePath.suffix`: `0 < i < len(name) - 1` for `i = name.rfind('.')`). -/
def suffixAux (acc : List Char) : List Char → List Char
  | [] => []
  | c :: t =>
    if c = '.' then (if t.isEmpty || acc.isEmpty then [] else '.' :: acc)
    else suffixAux (c :: acc) t

/-- `path.suffix.lower()`: the lowercased extension of a path's final
component (ASCII lowering models `str.lower`). -/
def pathSuffixLower (rel : String) : String :=
  ⟨(suffixAux [] (lastComp rel.data).reverse).map Char.toLower⟩

/-! ### Binary heuristic (`looks_binary`) -/

/-- A UTF-8 continuation byte. -/
def isCont (b : Nat) : Bool :=
  0x80 ≤ b && b ≤ 0xBF

/-- Strict UTF-8 validity of a byte sequence, as Python's
`bytes.decode("utf-8")` accepts it (no surrogates, no overlong forms, no
truncated tail). -/
def validUtf8 : List Nat → Bool
  | [] => true
  | b :: rest =>
    if b ≤ 0x7F then validUtf8 rest
    else if b < 0xC2 then false
    else if b ≤ 0xDF then
      match rest with
      | c :: r => isCont c && validUtf8 r
      | [] => false
    else if b ≤ 0xEF then
      match rest with
      | c1 :: c2 :: r =>
        (if b = 0xE0 then decide (0xA0 ≤ c1 && c1 ≤ 0xBF)
         else if b = 0xED then decide (0x80 ≤ c1 && c1 ≤ 0x9F)
         else isCont c1) && isCont c2 && validUtf8 r
      | _ => false
    else if b ≤ 0xF4 then
      match rest with
      | c1 :: c2 :: c3 :: r =>
        (if b = 0xF0 then decide (0x90 ≤ c1 && c1 ≤ 0xBF)
         else if b = 0xF4 then decide (0x80 ≤ c1 && c1 ≤ 0x8F)
         else isCont c1) && isCont c2 && isCont c3 && validUtf8 r
      | _ => false
    else false
termination_by l => l.length
decreasing_by all_goals simp_arith [List.length]

/-- The first 8192 bytes the probe reads (`f.read(8192)`). -/
def probeChunk (f : FSFile) : List Nat :=
  f.bytes.take 8192

/-- `looks_binary`: binary extension, else probe the first 8192 bytes for a
NUL byte, then for UTF-8 decodability; an unreadable file is conservatively
binary. -/
def looks_binary (f : FSFile) : Bool :=
  if pathSuffixLower f.rel ∈ BINARY_EXTENSIONS then true
  else if ¬ f.readable then true
  else if (probeChunk f).contains 0 then true
  else if ¬ validUtf8 (probeChunk f) then true
  else false

/-! ### Per-file decision (`decide_file`) and traversal (`collect_files`) -/

/-- The `.git` test of `decide_file`:
`"/.git/" in f"/{rel}/" or rel.startswith(".git/")`. -/
def underGit (rel : String) : Bool :=
  containsSub ('/' :: rel.data ++ ['/']) "/.git/".data || ".git/".data.isPrefixOf rel.data

/-- Size after the guarded `stat` call: `FileNotFoundError` is caught and the
size treated as 0. -/
def effSize (f : FSFile) : Nat :=
  match f.statSize with
  | some s => s
  | none => 0

/-- `decide_file`: ignored under `.git`, then too large, then binary, else ok. -/
def decide_file (f : FSFile) (max_bytes : Nat) : FileInfo :=
  let size := effSize f
  if underGit f.rel then ⟨f, f.rel, size, ⟨false, .ignored⟩⟩
  else if size > max_bytes then ⟨f, f.rel, size, ⟨false, .too_large⟩⟩
  else if looks_binary f then ⟨f, f.rel, size, ⟨false, .binary⟩⟩
  else ⟨f, f.rel, size, ⟨true, .ok⟩⟩

/-- `collect_files`: walk the (already sorted) listing, skip symlinks, decide
every regular file. -/
def collect_files (entries : List FSEntry) (max_bytes : Nat) : List FileInfo :=
  (entries.filter (fun e => ¬ e.isSymlink && e.isFile)).map
    (fun e => decide_file e.file max_bytes)

/-! ### Fallback ASCII tree (`generate_tree_fallback`) -/

/-- A directory entry as `iterdir` yields it: a regular file or a directory
with its children (in `iterdir` order). -/
inductive DirTree where
  | file (name : String)
  | dir (name : String) (children : List DirTree)

/-- The entry's `name`. -/
def entryName : DirTree → String
  | .file n => n
  | .dir n _ => n

/-- The entry's `is_dir()`. -/
def entryIsDir : DirTree → Bool
  | .file _ => false
  | .dir _ _ => true

/-- Strict code-point lexicographic order on character lists, as Python
compares strings. -/
def strLt : List Char → List Char → Bool
  | [], [] => false
  | [], _ :: _ => true
  | _ :: _, [] => false
  | a :: as, b :: bs =>
    if a.toNat < b.toNat then true
    else if b.toNat < a.toNat then false
    else strLt as bs

/-- The sort key `(not e.is_dir(), e.name.lower())` of the fallback walk. -/
def keyOf (e : DirTree) : Bool × List Char :=
  (! entryIsDir e, (entryName e).data.map Char.toLower)

/-- Strict order on sort keys: Python tuple comparison with `False < True`
first, then the lowercased name. -/
def pairLt (x y : Bool × List Char) : Bool :=
  (!x.1 && y.1) || (x.1 == y.1 && strLt x.2 y.2)

/-- Strict order between entries by their sort keys. -/
def keyLt (a b : DirTree) : Bool :=
  pairLt (keyOf a) (keyOf b)

/-- Non-strict key order; the stable ascending sort of the walk is the
insertion sort by this relation. -/
def treeLe (a b : DirTree) : Prop :=
  keyLt b a = false

instance : DecidableRel treeLe :=
  fun a b => inferInstanceAs (Decidable (keyLt b a = false))

/-- `entries.sort(key=lambda e: (not e.is_dir(), e.name.lower()))`: a stable
sort by the key order. -/
def sortEntries (l : List DirTree) : List DirTree :=
  List.insertionSort treeLe l

/-- One level's entries: drop `.git`, then sort. -/
def levelEntries (cs : List DirTree) : List DirTree :=
  sortEntries (cs.filter (fun e => decide (entryName e ≠ ".git")))

mutual

/-- Structural size of an entry (for termination of the walk). -/
def entrySizeT : DirTree → Nat
  | .file _ => 1
  | .dir _ cs => 1 + sizeListT cs

/-- Structural size of an entry list. -/
def sizeListT : List DirTree → Nat
  | [] => 0
  | e :: es => entrySizeT e + sizeListT es

end

theorem entrySizeT_pos (e : DirTree) : 1 ≤ entrySizeT e := by
  cases e <;> simp [entrySizeT]

theorem sizeListT_filter_le (p : DirTree → Bool) (l : List DirTree) :
    sizeListT (l.filter p) ≤ sizeListT l := by
  induction l with
  | nil => simp [sizeListT]
  | cons e es ih =>
    by_cases h : p e
    · simp [List.filter, h, sizeListT]
      omega
    · simp [List.filter, h, sizeListT]
      omega

theorem sizeListT_orderedInsert (x : DirTree) (l : List DirTree) :
    sizeListT (List.orderedInsert treeLe x l) = entrySizeT x + sizeListT l := by
  induction l with
  | nil => simp [List.orderedInsert, sizeListT]
  | cons e es ih =>
    by_cases h : treeLe x e
    · simp [List.orderedInsert, h, sizeListT]
    · simp [List.orderedInsert, h, sizeListT, ih]
      omega

theorem sizeListT_sortEntries (l : List DirTree) :
    sizeListT (sortEntries l) = sizeListT l := by
  induction l with
  | nil => rfl
  | cons e es ih =>
    simp [sortEntries, List.insertionSort] at ih ⊢
    rw [sizeListT_orderedInsert, ih, sizeListT]

theorem sizeListT_levelEntries_le (cs : List DirTree) :
    sizeListT (levelEntries cs) ≤ sizeListT cs := by
  rw [levelEntries, sizeListT_sortEntries]
  exact sizeListT_filter_le _ cs

theorem renderLoop_dec1 (n : String) (cs rest : List DirTree) :
    sizeListT (levelEntries cs) < sizeListT (DirTree.dir n cs :: rest) := by
  have h := sizeListT_levelEntries_le cs
  simp [sizeListT, entrySizeT]
  omega

theorem renderLoop_dec2 (e : DirTree) (rest : List DirTree) :
    sizeListT rest < sizeListT (e :: rest) := by
  have h := entrySizeT_pos e
  simp [sizeListT]
  omega

/-- The recursive renderer of `walk`: one line per entry with the branch
connector, the subtree of a directory entry under the extended continuation,
then the remaining siblings. -/
def renderLoop : List DirTree → String → List String
  | [], _ => []
  | e :: rest, pre =>
    let isLast := rest.isEmpty
    let line := pre ++ (if isLast then "└── " else "├── ") ++ entryName e
    let sub :=
      match e with
      | .file _ => []
      | .dir _ cs =>
        renderLoop (levelEntries cs) (pre ++ (if isLast then "    " else "│   "))
    line :: (sub ++ renderLoop rest pre)
termination_by l _ => sizeListT l
decreasing_by
  · simp_wf
    exact renderLoop_dec1 _ _ _
  · simp_wf
    exact renderLoop_dec2 _ _

/-- `walk(dir_path, prefix)`: filter out `.git`, sort, render. -/
def walkList (cs : List DirTree) (pre : String) : List String :=
  renderLoop (levelEntries cs) pre

/-- Subtree lines of one rendered entry (empty for a file). -/
def childLines (e : DirTree) (pre : String) : List String :=
  match e with
  | .file _ => []
  | .dir _ cs => walkList cs pre

/-- `generate_tree_fallback`: the root name, then the walk from the root with
an empty continuation, joined by newlines. -/
def generate_tree_fallback (rootName : String) (children : List DirTree) : String :=
  strJoin "\n" (rootName :: walkList children "")

/-! ### Slugs, icons, human sizes -/

/-- A character `slugify` keeps verbatim (ASCII model of `str.isalnum`). -/
def keepChar (c : Char) : Bool :=
  c.isAlphanum || c = '-' || c = '_'

/-- `slugify`: keep alphanumerics, dash and underscore; replace every other
character with a dash. -/
def slugify (s : String) : String :=
  ⟨s.data.map (fun c => if keepChar c then c else '-')⟩

/-- ASCII lowering of a string (`str.lower`). -/
def lowerStr (s : String) : String :=
  ⟨s.data.map Char.toLower⟩

/-- The `icons` table of `get_file_icon`. -/
def iconTable : List (String × String) :=
  [(".py", "🐍"), (".js", "🟨"), (".ts", "🔵"), (".jsx", "⚛️"), (".tsx", "⚛️"),
   (".html", "🌐"), (".css", "🎨"), (".scss", "🎨"), (".sass", "🎨"),
   (".json", "📋"), (".xml", "📋"), (".yaml", "📋"), (".yml", "📋"),
   (".md", "📝"), (".txt", "📄"), (".pdf", "📕"), (".doc", "📘"),
   (".docx", "📘"), (".xls", "📊"), (".xlsx", "📊"), (".csv", "📊"),
   (".sql", "🗄️"), (".sh", "⚡"), (".bat", "⚡"), (".ps1", "⚡"),
   (".php", "🐘"), (".rb", "💎"), (".go", "🐹"), (".rs", "🦀"),
   (".cpp", "⚙️"), (".c", "⚙️"), (".h", "⚙️"), (".java", "☕"),
   (".kt", "🟣"), (".swift", "🐦"), (".dart", "🎯"), (".vue", "💚"),
   (".svelte", "🧡"), (".dockerfile", "🐳"), (".gitignore", "📋"),
   (".env", "🔐"), (".lock", "🔒"), (".log", "📜")]

/-- `get_file_icon`: icon keyed by lowercased extension, generic fallback. -/
def get_file_icon (ext : String) : String :=
  ((iconTable.find? (fun p => p.1 = lowerStr ext)).map (fun p => p.2)).getD "📄"

/-- The `while f >= 1024.0 and i < len(units) - 1` loop of `bytes_human`: the
number of divisions by 1024 taken. All divisions are by powers of two, hence
exact in the source's floats for sizes below 2^53. -/
def bhSteps (n : Nat) (i : Nat) : Nat :=
  if h : 1024 ^ (i + 1) ≤ n ∧ i < 4 then bhSteps n (i + 1) else i
termination_by 4 - i
decreasing_by omega

/-- The unit names of `bytes_human`. -/
def bhUnit : Nat → String
  | 0 => "B"
  | 1 => "KiB"
  | 2 => "MiB"
  | 3 => "GiB"
  | _ => "TiB"

/-- `bytes_human`: integer bytes, otherwise one decimal digit with the
half-to-even rounding of `%.1f` applied to the exact quotient. -/
def bytes_human (n : Nat) : String :=
  let i := bhSteps n 0
  if i = 0 then toString n ++ " B"
  else
    let den := 1024 ^ i
    let scaled := 10 * n
    let q := scaled / den
    let r := scaled % den
    let t :=
      if den < 2 * r then q + 1
      else if 2 * r = den then (if q % 2 = 1 then q + 1 else q)
      else q
    toString (t / 10) ++ "." ++ toString (t % 10) ++ " " ++ bhUnit i

/-! ### Structured export (`generate_cxml_text`) -/

/-- `read_text`: the decoded contents, or `none` when the read raises. -/
def read_text (f : FSFile) : Option String :=
  if f.readOk then some f.text else none

/-- The six lines one included file contributes to the CXML container. -/
def cxml_entry (idx : Nat) (i : FileInfo) : List String :=
  ["<document index=\"" ++ toString idx ++ "\">",
   "<source>" ++ i.rel ++ "</source>",
   "<document_content>",
   (match read_text i.path with
    | some t => t
    | none => "Failed to read: " ++ i.path.errMsg),
   "</document_content>",
   "</document>"]

/-- The `enumerate(rendered, 1)` loop body of `generate_cxml_text`. -/
def cxmlGo (idx : Nat) : List FileInfo → List String
  | [] => []
  | i :: rest => cxml_entry idx i ++ cxmlGo (idx + 1) rest

/-- The included records, in traversal order (`i.decision.include` filter). -/
def renderedOf (infos : List FileInfo) : List FileInfo :=
  infos.filter (fun i => i.decision.«include»)

/-- `generate_cxml_text`: the tag-delimited plain-text container. -/
def generate_cxml_text (infos : List FileInfo) : String :=
  strJoin "\n" ("<documents>" :: cxmlGo 1 (renderedOf infos) ++ ["</documents>"])

/-! ### Document assembly (`build_html`) -/

/-- One table-of-contents item of the sidebar. -/
def tocItem (i : FileInfo) : String :=
  "<li><a href=\"#file-" ++ slugify i.rel ++ "\"><span class=\"file-icon\">" ++
    get_file_icon (pathSuffixLower i.rel) ++ "</span>" ++ htmlEscape i.rel ++
    "</a> <span class=\"file-size\">(" ++ bytes_human i.size ++ ")</span></li>"

/-- One `<li>` line of a skip list. -/
def liLine (i : FileInfo) : String :=
  "<li><code>" ++ htmlEscape i.rel ++ "</code> <span class='file-size'>(" ++
    bytes_human i.size ++ ")</span></li>"

/-- `render_skip_list`: empty for no members, else one collapsible group with
the member count and one line per member. -/
def render_skip_list (title : String) (items : List FileInfo) : String :=
  if items.isEmpty then ""
  else
    "<details class='skip-section'><summary>" ++ htmlEscape title ++ " (" ++
      toString items.length ++ ")</summary><ul class='skip-list'>\n" ++
      strJoin "\n" (items.map liLine) ++ "\n</ul></details>"

/-- The computed components of the assembled page. The surrounding literal
template (style sheet, navbar, view toggling markup) carries no state and is
not modelled; neither are the per-file highlighted bodies, which are produced
by the external highlighter and markdown libraries. -/
structure DocumentArtifact where
  totalFiles : Nat
  renderedCount : Nat
  skippedCount : Nat
  totalRenderedBytes : Nat
  tocHtml : String
  skippedHtml : String
  cxmlText : String

/-- `build_html`: stats, table of contents, skip lists and the embedded CXML
export, computed exactly as the source computes them. -/
def build_html (infos : List FileInfo) : DocumentArtifact :=
  let rendered := infos.filter (fun i => i.decision.«include»)
  let skipped_binary := infos.filter (fun i => i.decision.reason == Reason.binary)
  let skipped_large := infos.filter (fun i => i.decision.reason == Reason.too_large)
  let skipped_ignored := infos.filter (fun i => i.decision.reason == Reason.ignored)
  { totalFiles :=
      rendered.length + skipped_binary.length + skipped_large.length + skipped_ignored.length
    renderedCount := rendered.length
    skippedCount := skipped_binary.length + skipped_large.length
    totalRenderedBytes := (rendered.map (fun i => i.size)).sum
    tocHtml := String.join (rendered.map tocItem)
    skippedHtml :=
      render_skip_list "Skipped binaries" skipped_binary ++
        render_skip_list "Skipped large files" skipped_large
    cxmlText := generate_cxml_text infos }

/-- The core pipeline once a listing exists: classify, then assemble. -/
def run_core (entries : List FSEntry) (max_bytes : Nat) : DocumentArtifact :=
  build_html (collect_files entries max_bytes)

/-! ## Helper lemmas about the classifier -/

theorem decide_file_reason (f : FSFile) (m : Nat) :
    (decide_file f m).decision.reason =
      if underGit f.rel then Reason.ignored
      else if m < effSize f then Reason.too_large
      else if looks_binary f then Reason.binary
      else Reason.ok := by
  simp only [decide_file]
  split_ifs <;> rfl

theorem decide_file_size (f : FSFile) (m : Nat) :
    (decide_file f m).size = effSize f := by
  simp only [decide_file]
  split_ifs <;> rfl

theorem decide_file_rel (f : FSFile) (m : Nat) :
    (decide_file f m).rel = f.rel := by
  simp only [decide_file]
  split_ifs <;> rfl

theorem decide_file_include_iff (f : FSFile) (m : Nat) :
    (decide_file f m).decision.«include» = true ↔
      (decide_file f m).decision.reason = Reason.ok := by
  simp only [decide_file]
  split_ifs <;> simp

theorem count_reasons (infos : List FileInfo) :
    infos.countP (fun i => i.decision.reason == Reason.ok)
      + infos.countP (fun i => i.decision.reason == Reason.binary)
      + infos.countP (fun i => i.decision.reason == Reason.too_large)
      + infos.countP (fun i => i.decision.reason == Reason.ignored)
      = infos.length := by
  induction infos with
  | nil => rfl
  | cons i t ih =>
    cases hr : i.decision.reason <;> simp [List.countP_cons, hr] <;> omega

theorem mem_collect_files (entries : List FSEntry) (m : Nat) (i : FileInfo)
    (hi : i ∈ collect_files entries m) :
    ∃ e ∈ entries.filter (fun e => ¬ e.isSymlink && e.isFile),
      i = decide_file e.file m := by
  obtain ⟨e, he, rfl⟩ := List.mem_map.mp hi
  exact ⟨e, he, rfl⟩

/-! ## The claims -/

/-- C1: `decide_file` tests in a fixed order: a path under the `.git`
metadata directory is `ignored`; otherwise a size strictly above the
threshold is `too_large` (a file of exactly `max_bytes` bytes survives this
test and its inclusion depends only on the binary check, while `max_bytes + 1`
bytes is `too_large`); otherwise a file for which the binary heuristic holds
is `binary`; otherwise the file is `ok`. -/
theorem decide_file_decision_order (f : FSFile) (m : Nat) :
    (underGit f.rel = true → (decide_file f m).decision.reason = Reason.ignored)
    ∧ (underGit f.rel = false → m < effSize f →
        (decide_file f m).decision.reason = Reason.too_large)
    ∧ (underGit f.rel = false → effSize f ≤ m → looks_binary f = true →
        (decide_file f m).decision.reason = Reason.binary)
    ∧ (underGit f.rel = false → effSize f ≤ m → looks_binary f = false →
        (decide_file f m).decision.reason = Reason.ok)
    ∧ (underGit f.rel = false → f.statSize = some m →
        (decide_file f m).decision.reason ≠ Reason.too_large
        ∧ (decide_file f m).decision.«include» = ! looks_binary f)
    ∧ (underGit f.rel = false → f.statSize = some (m + 1) →
        (decide_file f m).decision.reason = Reason.too_large) := by
  refine ⟨fun h => ?_, fun h hlt => ?_, fun h hle hb => ?_, fun h hle hb => ?_,
    fun h hs => ?_, fun h hs => ?_⟩
  · rw [decide_file_reason]
    simp [h]
  · rw [decide_file_reason]
    simp [h, hlt]
  · rw [decide_file_reason]
    simp [h, hb, Nat.not_lt.mpr hle]
  · rw [decide_file_reason]
    simp [h, hb, Nat.not_lt.mpr hle]
  · have hse : effSize f = m := by simp [effSize, hs]
    constructor
    · rw [decide_file_reason]
      simp [h, hse]
      split_ifs <;> simp
    · simp only [decide_file]
      rw [if_neg (by simp [h]), if_neg (by simp [hse])]
      split_ifs with hb <;> simp [hb]
  · have hse : effSize f = m + 1 := by simp [effSize, hs]
    rw [decide_file_reason]
    simp [h, hse]

/-- C2: every record carries exactly one of the four reasons, the include
flag holds exactly for reason `ok`, and the four per-reason counts add up to
the number of discovered files. -/
theorem classification_invariant (entries : List FSEntry) (m : Nat) :
    (∀ i ∈ collect_files entries m,
      (i.decision.reason = Reason.ok ∨ i.decision.reason = Reason.binary ∨
        i.decision.reason = Reason.too_large ∨ i.decision.reason = Reason.ignored)
      ∧ (i.decision.«include» = true ↔ i.decision.reason = Reason.ok))
    ∧ (collect_files entries m).countP (fun i => i.decision.reason == Reason.ok)
        + (collect_files entries m).countP (fun i => i.decision.reason == Reason.binary)
        + (collect_files entries m).countP (fun i => i.decision.reason == Reason.too_large)
        + (collect_files entries m).countP (fun i => i.decision.reason == Reason.ignored)
      = (collect_files entries m).length := by
  constructor
  · intro i hi
    obtain ⟨e, _, rfl⟩ := mem_collect_files entries m i hi
    refine ⟨?_, decide_file_include_iff e.file m⟩
    cases hr : (decide_file e.file m).decision.reason <;> simp [hr]
  · exact count_reasons _

/-- C3: the binary heuristic holds exactly when the lowered extension is in
the configured binary set, or the file is unreadable, or a NUL byte occurs in
the first 8192 bytes, or that prefix is not valid UTF-8; in particular a NUL
byte in the first 8192 bytes makes the file binary whatever its extension. -/
theorem looks_binary_spec (f : FSFile) :
    looks_binary f =
      (decide (pathSuffixLower f.rel ∈ BINARY_EXTENSIONS) || ! f.readable ||
        (f.bytes.take 8192).contains 0 || ! validUtf8 (f.bytes.take 8192))
    ∧ ((f.bytes.take 8192).contains 0 = true → looks_binary f = true) := by
  have heq : looks_binary f =
      (decide (pathSuffixLower f.rel ∈ BINARY_EXTENSIONS) || ! f.readable ||
        (f.bytes.take 8192).contains 0 || ! validUtf8 (f.bytes.take 8192)) := by
    simp only [looks_binary, probeChunk]
    by_cases h1 : pathSuffixLower f.rel ∈ BINARY_EXTENSIONS
    · simp [h1]
    · by_cases h2 : f.readable = true
      · by_cases h3 : (f.bytes.take 8192).contains 0 = true
        · simp [h1, h2, h3, Bool.or_assoc]
        · by_cases h4 : validUtf8 (f.bytes.take 8192) = true <;>
            simp_all [Bool.or_assoc]
      · simp_all [Bool.or_assoc]
  refine ⟨heq, fun h => ?_⟩
  rw [heq, h]
  simp

theorem collect_filter_include_eq_ok (entries : List FSEntry) (m : Nat) :
    (collect_files entries m).filter (fun i => i.decision.«include»)
      = (collect_files entries m).filter (fun i => i.decision.reason == Reason.ok) := by
  apply List.filter_congr
  intro i hi
  obtain ⟨e, _, rfl⟩ := mem_collect_files entries m i hi
  rcases h : (decide_file e.file m).decision.«include» with _ | _
  · have := (decide_file_include_iff e.file m).not.mp (by simp [h])
    simp [h, this]
  · have := (decide_file_include_iff e.file m).mp h
    simp [this]

/-- C6: in the stats block, total files counts every decision (ignored
included); rendered counts exactly the `ok` records; skipped counts only
`binary` plus `too_large`, leaving `ignored` out; and the total rendered
bytes is the sum of the included files' sizes. -/
theorem build_html_stats_spec (entries : List FSEntry) (m : Nat) :
    (build_html (collect_files entries m)).totalFiles = (collect_files entries m).length
    ∧ (build_html (collect_files entries m)).renderedCount
        = (collect_files entries m).countP (fun i => i.decision.reason == Reason.ok)
    ∧ (build_html (collect_files entries m)).skippedCount
        = (collect_files entries m).countP (fun i => i.decision.reason == Reason.binary)
          + (collect_files entries m).countP (fun i => i.decision.reason == Reason.too_large)
    ∧ (build_html (collect_files entries m)).renderedCount
        + (build_html (collect_files entries m)).skippedCount
        + (collect_files entries m).countP (fun i => i.decision.reason == Reason.ignored)
        = (build_html (collect_files entries m)).totalFiles
    ∧ (build_html (collect_files entries m)).totalRenderedBytes
        = (((collect_files entries m).filter (fun i => i.decision.«include»)).map
            (fun i => i.size)).sum := by
  have hren : ((collect_files entries m).filter (fun i => i.decision.«include»)).length
      = (collect_files entries m).countP (fun i => i.decision.reason == Reason.ok) := by
    rw [collect_filter_include_eq_ok, List.countP_eq_length_filter]
  have hskip : (build_html (collect_files entries m)).skippedCount
      = (collect_files entries m).countP (fun i => i.decision.reason == Reason.binary)
        + (collect_files entries m).countP (fun i => i.decision.reason == Reason.too_large) := by
    show ((collect_files entries m).filter fun i => i.decision.reason == Reason.binary).length
        + ((collect_files entries m).filter fun i => i.decision.reason == Reason.too_large).length
        = _
    rw [← List.countP_eq_length_filter, ← List.countP_eq_length_filter]
  have htot : (build_html (collect_files entries m)).totalFiles
      = (collect_files entries m).length := by
    show ((collect_files entries m).filter (fun i => i.decision.«include»)).length
        + ((collect_files entries m).filter fun i => i.decision.reason == Reason.binary).length
        + ((collect_files entries m).filter fun i => i.decision.reason == Reason.too_large).length
        + ((collect_files entries m).filter fun i => i.decision.reason == Reason.ignored).length
        = _
    rw [hren, ← List.countP_eq_length_filter, ← List.countP_eq_length_filter,
      ← List.countP_eq_length_filter]
    exact count_reasons _
  have hrc : (build_html (collect_files entries m)).renderedCount
      = (collect_files entries m).countP (fun i => i.decision.reason == Reason.ok) := hren
  refine ⟨htot, hrc, hskip, ?_, rfl⟩
  rw [htot, hrc, hskip]
  have := count_reasons (collect_files entries m)
  omega

/-- C8 counterexample: the distinct relative paths `a.b` and `a/b` slugify to
the same anchor `a-b`, so the slug map is not injective on distinct paths. -/
theorem slugify_collision_cex :
    slugify "a.b" = slugify "a/b" ∧ ("a.b" : String) ≠ "a/b" ∧ slugify "a.b" = "a-b" :=
  ⟨rfl, by decide, rfl⟩

theorem slugify_kept_id (s : String) (hs : ∀ c ∈ s.data, keepChar c = true) :
    slugify s = s := by
  obtain ⟨l⟩ := s
  simp only [slugify]
  congr 1
  calc l.map (fun c => if keepChar c then c else '-')
      = l.map id := List.map_congr_left (fun a ha => by simp [hs a ha])
    _ = l := List.map_id l

/-- C8 amended: the slug map keeps alphanumerics, dash and underscore and
replaces every other character with a dash, so it is injective on paths made
only of kept characters; distinct paths differing in replaced characters can
collide (`a.b` and `a/b` both map to `a-b`). -/
theorem slugify_injective_on_kept (s t : String)
    (hs : ∀ c ∈ s.data, keepChar c = true) (ht : ∀ c ∈ t.data, keepChar c = true)
    (h : slugify s = slugify t) : s = t := by
  rw [slugify_kept_id s hs, slugify_kept_id t ht] at h
  exact h

/-- C8 witness: the amended injectivity applied at a concrete kept path. -/
theorem slugify_injective_on_kept_witness : ("a-1_b" : String) = "a-1_b" :=
  slugify_injective_on_kept "a-1_b" "a-1_b" (by decide) (by decide) rfl

/-- C10 counterexample: for a root under which nothing is discoverable the
core still assembles a complete artifact — zero files, an empty table of
contents and an empty export container — instead of failing, contradicting
the claim that no placeholder artifact is emitted. -/
theorem empty_root_artifact_cex :
    collect_files [] 51200 = []
    ∧ (run_core [] 51200).totalFiles = 0
    ∧ (run_core [] 51200).tocHtml = ""
    ∧ (run_core [] 51200).cxmlText = "<documents>\n</documents>" :=
  ⟨rfl, rfl, rfl, rfl⟩

/-- C10 amended: the core has no failure path of its own: on an empty
listing it emits a well-formed artifact reporting zero files, empty TOC and
skip lists and an empty export container, and the invocation succeeds;
surfacing an inaccessible root as a failure is left to the traversal
primitive and shell outside the core. -/
theorem empty_root_artifact_spec (m : Nat) :
    run_core [] m =
      { totalFiles := 0, renderedCount := 0, skippedCount := 0, totalRenderedBytes := 0,
        tocHtml := "", skippedHtml := "", cxmlText := "<documents>\n</documents>" } :=
  rfl

theorem cxmlGo_length (l : List FileInfo) : ∀ idx, (cxmlGo idx l).length = 6 * l.length := by
  induction l with
  | nil => intro idx; rfl
  | cons i rest ih =>
    intro idx
    simp [cxmlGo, cxml_entry, ih (idx + 1)]
    omega

theorem cxmlGo_drop_take (l : List FileInfo) :
    ∀ idx k (h : k < l.length),
      ((cxmlGo idx l).drop (6 * k)).take 6 = cxml_entry (idx + k) (l.get ⟨k, h⟩) := by
  induction l with
  | nil => intro idx k h; simp at h
  | cons i rest ih =>
    intro idx k h
    cases k with
    | zero => simp [cxmlGo, cxml_entry]
    | succ k' =>
      have h' : k' < rest.length := by simpa using Nat.lt_of_succ_lt_succ h
      have hdrop : (cxmlGo idx (i :: rest)).drop (6 * (k' + 1))
          = (cxmlGo (idx + 1) rest).drop (6 * k') := by
        show (cxml_entry idx i ++ cxmlGo (idx + 1) rest).drop (6 * (k' + 1)) = _
        have h6 : 6 * (k' + 1) = (cxml_entry idx i).length + 6 * k' := by
          simp [cxml_entry]
          omega
        rw [h6, List.drop_append]
      rw [hdrop, ih (idx + 1) k' h']
      congr 1
      omega

/-- C7: the structured export is the tag-delimited joining of one six-line
entry per included file: the entry count equals the included-file count, the
`k`-th entry carries the 1-based index `k + 1`, and each entry holds the
file's relative path and its text verbatim (no markup escaping) — or a
`Failed to read:` notice when the read fails — between the content tags; the
table of contents is built from the same included sequence in the same
order. -/
theorem generate_cxml_spec (infos : List FileInfo) :
    generate_cxml_text infos
      = strJoin "\n" ("<documents>" :: cxmlGo 1 (renderedOf infos) ++ ["</documents>"])
    ∧ (cxmlGo 1 (renderedOf infos)).length = 6 * (renderedOf infos).length
    ∧ (∀ k (h : k < (renderedOf infos).length),
        ((cxmlGo 1 (renderedOf infos)).drop (6 * k)).take 6
          = cxml_entry (k + 1) ((renderedOf infos).get ⟨k, h⟩))
    ∧ (∀ idx i, cxml_entry idx i
        = ["<document index=\"" ++ toString idx ++ "\">",
           "<source>" ++ i.rel ++ "</source>",
           "<document_content>",
           (if i.path.readOk then i.path.text else "Failed to read: " ++ i.path.errMsg),
           "</document_content>",
           "</document>"])
    ∧ renderedOf infos = infos.filter (fun i => i.decision.«include»)
    ∧ (build_html infos).tocHtml = String.join ((renderedOf infos).map tocItem) := by
  refine ⟨rfl, cxmlGo_length _ 1, fun k h => ?_, fun idx i => ?_, rfl, rfl⟩
  · rw [cxmlGo_drop_take (renderedOf infos) 1 k h]
    congr 1
    omega
  · by_cases hr : i.path.readOk <;> simp [cxml_entry, read_text, hr]

theorem str_data_append (a b : String) : (a ++ b).data = a.data ++ b.data := by
  cases a
  cases b
  rfl

theorem containsSub_of_isSub (needle : List Char) :
    ∀ hay, needle <:+: hay → containsSub hay needle = true := by
  intro hay
  induction hay with
  | nil =>
    intro h
    rw [List.eq_nil_of_infix_nil h]
    rfl
  | cons c t ih =>
    intro h
    obtain ⟨s, u, hsu⟩ := h
    rw [containsSub]
    cases s with
    | nil =>
      have hpre : needle <+: c :: t := ⟨u, by simpa using hsu⟩
      simp [List.isPrefixOf_iff_prefix, hpre]
    | cons a s' =>
      have ht : needle <:+: t := ⟨s', u, by simpa using congrArg List.tail hsu⟩
      simp [ih ht]

theorem infix_strJoin (sep x : String) (l : List String) (h : x ∈ l) :
    x.data <:+: (strJoin sep l).data := by
  induction l with
  | nil => cases h
  | cons y t ih =>
    cases t with
    | nil =>
      have hx : x = y := by simpa using h
      subst hx
      exact List.infix_refl _
    | cons z t2 =>
      rcases List.mem_cons.mp h with rfl | h2
      · show x.data <:+: (x ++ sep ++ strJoin sep (z :: t2)).data
        refine ⟨[], (sep ++ strJoin sep (z :: t2)).data, ?_⟩
        simp [str_data_append]
      · have hi := ih h2
        have hsfx : (strJoin sep (z :: t2)).data <:+: (strJoin sep (y :: z :: t2)).data := by
          show _ <:+: (y ++ sep ++ strJoin sep (z :: t2)).data
          refine ⟨(y ++ sep).data, [], ?_⟩
          simp [str_data_append]
        exact hi.trans hsfx

theorem liLine_parts_isSub (i : FileInfo) :
    (htmlEscape i.rel).data <:+: (liLine i).data
    ∧ (bytes_human i.size).data <:+: (liLine i).data := by
  constructor
  · refine ⟨("<li><code>" : String).data,
      ("</code> <span class='file-size'>(" ++ bytes_human i.size ++ ")</span></li>" : String).data, ?_⟩
    simp [liLine, str_data_append]
  · refine ⟨("<li><code>" ++ htmlEscape i.rel ++ "</code> <span class='file-size'>(" : String).data,
      (")</span></li>" : String).data, ?_⟩
    simp [liLine, str_data_append]

theorem render_skip_list_ne_empty (title : String) (items : List FileInfo)
    (hne : items ≠ []) : render_skip_list title items ≠ "" := by
  intro h
  have hie : items.isEmpty = false := by simpa using hne
  rw [render_skip_list, if_neg (by simp [hie])] at h
  have hlen := congrArg String.length h
  simp [String.length_append] at hlen
  have h0 : ("<details class='skip-section'><summary>" : String).length = 39 := rfl
  omega

/-- C5: the assembled skip-list block is exactly one collapsible group for
the `binary` members followed by one for the `too_large` members — each
emitted only when nonempty, and listing every member's escaped relative path
and human-readable size — while `ignored` files get no group at all. -/
theorem skip_lists_spec (infos : List FileInfo) (title : String) (items : List FileInfo) :
    (build_html infos).skippedHtml
      = render_skip_list "Skipped binaries"
          (infos.filter (fun i => i.decision.reason == Reason.binary))
        ++ render_skip_list "Skipped large files"
          (infos.filter (fun i => i.decision.reason == Reason.too_large))
    ∧ (render_skip_list title items = "" ↔ items = [])
    ∧ (∀ i ∈ items,
        containsSubStr (render_skip_list title items) (htmlEscape i.rel) = true
        ∧ containsSubStr (render_skip_list title items) (bytes_human i.size) = true) := by
  refine ⟨rfl, ⟨fun h => ?_, fun h => by simp [render_skip_list, h]⟩, fun i hi => ?_⟩
  · by_contra hne
    exact render_skip_list_ne_empty title items hne h
  · have hne : items ≠ [] := fun h0 => by simp [h0] at hi
    have hie : items.isEmpty = false := by simpa using hne
    have hjoin : (liLine i).data <:+: (strJoin "\n" (items.map liLine)).data :=
      infix_strJoin "\n" (liLine i) (items.map liLine) (List.mem_map_of_mem liLine hi)
    have hwhole : (strJoin "\n" (items.map liLine)).data <:+: (render_skip_list title items).data := by
      rw [render_skip_list, if_neg (by simp [hie])]
      refine ⟨("<details class='skip-section'><summary>" ++ htmlEscape title ++ " (" ++
        toString items.length ++ ")</summary><ul class='skip-list'>\n" : String).data,
        ("\n</ul></details>" : String).data, ?_⟩
      simp [str_data_append]
    have h1 := ((liLine_parts_isSub i).1.trans hjoin).trans hwhole
    have h2 := ((liLine_parts_isSub i).2.trans hjoin).trans hwhole
    exact ⟨containsSub_of_isSub _ _ h1, containsSub_of_isSub _ _ h2⟩

/-- C5 counterexample: a run whose only record is an `ignored` file (here a
file under `.git/`, classified by `decide_file`) produces an empty skip-list
block — no group is emitted for the nonempty `ignored` reason, contradicting
"one group for every non-ok reason with at least one member". -/
theorem skip_list_ignored_cex :
    (decide_file ⟨".git/config", some 10, true, [104], true, "x", ""⟩ 51200).decision.reason
      = Reason.ignored
    ∧ (build_html [decide_file ⟨".git/config", some 10, true, [104], true, "x", ""⟩ 51200]).skippedHtml
      = "" := by
  constructor
  · decide
  · rfl

theorem char_eq_of_toNat_eq (a b : Char) (h : a.toNat = b.toNat) : a = b :=
  Char.eq_of_val_eq (UInt32.ext h)

theorem strLt_asymm : ∀ x y : List Char, strLt x y = true → strLt y x = false := by
  intro x
  induction x with
  | nil =>
    intro y h
    cases y with
    | nil => simp [strLt] at h
    | cons b bs => simp [strLt]
  | cons a as ih =>
    intro y h
    cases y with
    | nil => simp [strLt] at h
    | cons b bs =>
      by_cases h1 : a.toNat < b.toNat
      · have h2 : ¬ b.toNat < a.toNat := by omega
        simp [strLt, h1, h2]
      · by_cases h2 : b.toNat < a.toNat
        · simp [strLt, h1, h2] at h
        · simp [strLt, h1, h2] at h ⊢
          exact ih bs h

theorem strLt_trans : ∀ x y z : List Char,
    strLt x y = true → strLt y z = true → strLt x z = true := by
  intro x
  induction x with
  | nil =>
    intro y z h1 h2
    cases y with
    | nil => simp [strLt] at h1
    | cons b bs =>
      cases z with
      | nil => simp [strLt] at h2
      | cons c cs => simp [strLt]
  | cons a as ih =>
    intro y z h1 h2
    cases y with
    | nil => simp [strLt] at h1
    | cons b bs =>
      cases z with
      | nil => simp [strLt] at h2
      | cons c cs =>
        simp only [strLt] at h1 h2 ⊢
        by_cases hab : a.toNat < b.toNat <;> by_cases hbc : b.toNat < c.toNat
        · rw [if_pos (by omega)]
        · rw [if_neg hbc] at h2
          by_cases hcb : c.toNat < b.toNat
          · rw [if_pos hcb] at h2
            exact absurd h2 (by simp)
          · rw [if_pos (by omega)]
        · rw [if_neg hab] at h1
          by_cases hba : b.toNat < a.toNat
          · rw [if_pos hba] at h1
            exact absurd h1 (by simp)
          · rw [if_pos (by omega)]
        · rw [if_neg hab] at h1
          rw [if_neg hbc] at h2
          by_cases hba : b.toNat < a.toNat
          · rw [if_pos hba] at h1
            exact absurd h1 (by simp)
          rw [if_neg hba] at h1
          by_cases hcb : c.toNat < b.toNat
          · rw [if_pos hcb] at h2
            exact absurd h2 (by simp)
          rw [if_neg hcb] at h2
          rw [if_neg (by omega), if_neg (by omega)]
          exact ih bs cs h1 h2

theorem strLt_eq_of_not : ∀ x y : List Char,
    strLt x y = false → strLt y x = false → x = y := by
  intro x
  induction x with
  | nil =>
    intro y h1 h2
    cases y with
    | nil => rfl
    | cons b bs => simp [strLt] at h1
  | cons a as ih =>
    intro y h1 h2
    cases y with
    | nil => simp [strLt] at h2
    | cons b bs =>
      simp only [strLt] at h1 h2
      by_cases hab : a.toNat < b.toNat
      · rw [if_pos hab] at h1
        exact absurd h1 (by simp)
      · by_cases hba : b.toNat < a.toNat
        · rw [if_pos hba] at h2
          exact absurd h2 (by simp)
        · rw [if_neg hab, if_neg hba] at h1
          rw [if_neg hba, if_neg hab] at h2
          have hc : a = b := char_eq_of_toNat_eq a b (by omega)
          rw [hc, ih bs h1 h2]

theorem pairLt_asymm (x y : Bool × List Char) :
    pairLt x y = true → pairLt y x = false := by
  obtain ⟨f1, n1⟩ := x
  obtain ⟨f2, n2⟩ := y
  cases f1 <;> cases f2 <;> simp [pairLt] <;> exact strLt_asymm n1 n2

theorem pairLt_trans (x y z : Bool × List Char) :
    pairLt x y = true → pairLt y z = true → pairLt x z = true := by
  obtain ⟨f1, n1⟩ := x
  obtain ⟨f2, n2⟩ := y
  obtain ⟨f3, n3⟩ := z
  cases f1 <;> cases f2 <;> cases f3 <;> simp [pairLt] <;>
    (intro h1 h2; exact strLt_trans n1 n2 n3 h1 h2)

theorem pairLt_tri (x y : Bool × List Char) :
    pairLt x y = true ∨ pairLt y x = true ∨ x = y := by
  obtain ⟨f1, n1⟩ := x
  obtain ⟨f2, n2⟩ := y
  cases f1 <;> cases f2 <;> simp [pairLt]
  · by_cases h1 : strLt n1 n2 = true
    · exact Or.inl h1
    · by_cases h2 : strLt n2 n1 = true
      · exact Or.inr (Or.inl h2)
      · exact Or.inr (Or.inr (strLt_eq_of_not n1 n2 (by simpa using h1) (by simpa using h2)))
  · by_cases h1 : strLt n1 n2 = true
    · exact Or.inl h1
    · by_cases h2 : strLt n2 n1 = true
      · exact Or.inr (Or.inl h2)
      · exact Or.inr (Or.inr (strLt_eq_of_not n1 n2 (by simpa using h1) (by simpa using h2)))

instance : IsTotal DirTree treeLe where
  total a b := by
    by_cases h : keyLt b a = true
    · right
      show keyLt a b = false
      exact pairLt_asymm _ _ h
    · left
      show keyLt b a = false
      simpa using h

instance : IsTrans DirTree treeLe where
  trans a b c hab hbc := by
    show keyLt c a = false
    have hab' : pairLt (keyOf b) (keyOf a) = false := hab
    have hbc' : pairLt (keyOf c) (keyOf b) = false := hbc
    by_contra hca
    have hca' : pairLt (keyOf c) (keyOf a) = true := by simpa using hca
    rcases pairLt_tri (keyOf a) (keyOf b) with h | h | h
    · have := pairLt_trans _ _ _ hca' h
      rw [this] at hbc'
      cases hbc'
    · rw [h] at hab'
      cases hab'
    · rw [h] at hca'
      rw [hca'] at hbc'
      cases hbc'

theorem renderLoop_nil (pre : String) : renderLoop [] pre = [] := by
  rw [renderLoop.eq_def]

theorem renderLoop_cons (e : DirTree) (rest : List DirTree) (pre : String) :
    renderLoop (e :: rest) pre
      = (pre ++ (if rest.isEmpty then "└── " else "├── ") ++ entryName e)
        :: (childLines e (pre ++ (if rest.isEmpty then "    " else "│   "))
            ++ renderLoop rest pre) := by
  rw [renderLoop.eq_def]
  cases e <;> simp [childLines, walkList]

/-- C4 amended: at every level the fallback tree walk drops `.git`, then
stably sorts the entries with directories before files and case-insensitively
by name within each kind (the code's key is `(not is_dir, name.lower())`, so
directories — not files — come first), and renders the connector `├── ` for
every non-last entry, `└── ` for the last one, continuing a directory's
subtree under `│   ` (non-last) or four spaces (last). -/
theorem tree_fallback_spec :
    (∀ cs pre, walkList cs pre = renderLoop (levelEntries cs) pre)
    ∧ (∀ cs, levelEntries cs
        = sortEntries (cs.filter (fun e => decide (entryName e ≠ ".git"))))
    ∧ (∀ l : List DirTree, (sortEntries l).Perm l)
    ∧ (∀ l : List DirTree, (sortEntries l).Sorted treeLe)
    ∧ (∀ a b, treeLe a b → entryIsDir b = true → entryIsDir a = true)
    ∧ (∀ a b, treeLe a b → entryIsDir a = entryIsDir b →
        strLt ((entryName b).data.map Char.toLower) ((entryName a).data.map Char.toLower)
          = false)
    ∧ (∀ e rest pre, renderLoop (e :: rest) pre
        = (pre ++ (if rest.isEmpty then "└── " else "├── ") ++ entryName e)
          :: (childLines e (pre ++ (if rest.isEmpty then "    " else "│   "))
              ++ renderLoop rest pre))
    ∧ (∀ rootName children, generate_tree_fallback rootName children
        = strJoin "\n" (rootName :: walkList children "")) := by
  refine ⟨fun cs pre => rfl, fun cs => rfl, fun l => List.perm_insertionSort treeLe l,
    fun l => List.sorted_insertionSort treeLe l, ?_, ?_, renderLoop_cons, fun r c => rfl⟩
  · intro a b h hb
    cases hda : entryIsDir a
    · exfalso
      have h' : pairLt (keyOf b) (keyOf a) = false := h
      simp [keyOf, pairLt, hb, hda] at h'
    · rfl
  · intro a b h heq
    have h' : pairLt (keyOf b) (keyOf a) = false := h
    simpa [keyOf, pairLt, heq] using h'

/-- C4 counterexample: with a file `a` and a directory `b` in one directory,
the walk renders the directory first (`├── b` before `└── a`): entries are
sorted with directories before files, not files before directories as the
claim states. -/
theorem tree_dirs_first_cex :
    sortEntries [DirTree.file "a", DirTree.dir "b" []]
      = [DirTree.dir "b" [], DirTree.file "a"]
    ∧ generate_tree_fallback "r" [DirTree.file "a", DirTree.dir "b" []]
      = "r\n├── b\n└── a"
    ∧ ("r\n├── b\n└── a" : String) ≠ "r\n├── a\n└── b" := by
  have hl : levelEntries [DirTree.file "a", DirTree.dir "b" []]
      = [DirTree.dir "b" [], DirTree.file "a"] := rfl
  have hl0 : levelEntries ([] : List DirTree) = [] := rfl
  refine ⟨rfl, ?_, by decide⟩
  simp only [generate_tree_fallback, walkList, hl, hl0, renderLoop_cons, renderLoop_nil,
    childLines]
  rfl

/-- C9 counterexample: a record whose byte read fails (stat succeeded with
size 100) keeps size 100 — the size is not treated as 0, contradicting the
claim's "the file's size is treated as 0" for read errors. -/
theorem read_error_keeps_size_cex :
    (decide_file ⟨"data.txt", some 100, false, [], false, "", "boom"⟩ 1000).size = 100
    ∧ (decide_file ⟨"data.txt", some 100, false, [], false, "", "boom"⟩ 1000).decision.reason
        = Reason.binary
    ∧ ¬ (decide_file ⟨"data.txt", some 100, false, [], false, "", "boom"⟩ 1000).size = 0 := by
  refine ⟨rfl, ?_, by decide⟩
  decide

/-- C9 amended: a stat error (`FileNotFoundError`, the error the classifier
catches) is treated as size 0; a failed byte read still yields a record —
classified conservatively, never `ok` — but keeps the stat-reported size; and
traversal always produces exactly one record per regular non-symlink entry,
so no per-file error aborts it. -/
theorem traversal_error_recovery (f : FSFile) (m : Nat) (entries : List FSEntry) :
    (f.statSize = none → (decide_file f m).size = 0)
    ∧ (f.readable = false → (decide_file f m).decision.reason ≠ Reason.ok
        ∧ (decide_file f m).size = effSize f)
    ∧ (collect_files entries m).length
        = (entries.filter (fun e => ¬ e.isSymlink && e.isFile)).length := by
  refine ⟨fun h => ?_, fun h => ⟨?_, decide_file_size f m⟩, ?_⟩
  · rw [decide_file_size]
    simp [effSize, h]
  · have hb : looks_binary f = true := by
      simp [looks_binary, h]
    rw [decide_file_reason]
    split_ifs <;> simp_all
  · simp [collect_files]

end Flatten
